import Mathlib

/-!
Verification development for the jcleasing apartment-listing scraper.

The definitions below are a shallow embedding of the Python sources:
  * src/jcleasing/utils/helpers.py and utils/basics.py (string and date
    normalization),
  * src/jcleasing/core/runner.py, core/registry.py, core/results.py
    (orchestration, registry, serialization),
  * src/jcleasing/scrapers/grand.py and scrapers/columbus.py (per-source
    collection and the two-layout unit parser),
  * src/jcleasing/scrapers/haus25.py (AJAX response scoring),
  * main.py (the legacy standalone variant of the Columbus parser).

Python strings are modelled as Lean `String` (operating on the `data`
character list), dynamically typed slots (`size`, `price`) as a small JSON
value type `JVal`, raised exceptions as `Except`, and Python dicts as
insertion-ordered association lists.
-/

namespace JCLeasing

/-- JSON-style dynamic value: what a Python field/JSON slot can hold here. -/
inductive JVal where
  | s (v : String)
  | i (v : Int)
  | arr (xs : List JVal)
  | obj (fs : List (String × JVal))
  | null
deriving Repr

/-- Python whitespace characters recognised by `str.strip()` (ASCII range). -/
def isPyWS (c : Char) : Bool :=
  c = ' ' || c = '\t' || c = '\n' || c = '\r' || c = '\x0b' || c = '\x0c'

/-- Python `str.lower()` (ASCII letters; the sources only feed ASCII). -/
def pyLower (s : String) : String := ⟨s.data.map Char.toLower⟩

/-- Python `str.strip()`: drop leading and trailing whitespace. -/
def pyStrip (s : String) : String :=
  ⟨((s.data.dropWhile isPyWS).reverse.dropWhile isPyWS).reverse⟩

/-- Substring occurrence on character lists (Python `pat in s`). -/
def containsSubList (pat : List Char) : List Char → Bool
  | [] => pat.isEmpty
  | c :: t => pat.isPrefixOf (c :: t) || containsSubList pat t

/-- Python `pat in s` for strings. -/
def pyContains (s pat : String) : Bool := containsSubList pat.data s.data

/-- Fuel-driven worker for `str.replace`: replaces every occurrence of
`pat` (assumed non-empty) left to right. Fuel is the input length, which
is always sufficient because each step consumes at least one character. -/
def replGo (pat rep : List Char) : Nat → List Char → List Char
  | _, [] => []
  | 0, s => s
  | Nat.succ n, c :: t =>
    if pat ≠ [] ∧ pat.isPrefixOf (c :: t) then
      rep ++ replGo pat rep n (List.drop (pat.length - 1) t)
    else c :: replGo pat rep n t

/-- Python `s.replace(pat, rep)`. The sources never call it with an empty
pattern, so that case is left as the identity. -/
def pyReplace (s pat rep : String) : String :=
  if pat.data = [] then s else ⟨replGo pat.data rep.data s.data.length s.data⟩

/-- Fuel-driven worker for `str.split(sep)` with non-empty `sep`:
splits on every occurrence, keeping empty fields. -/
def splitGo (sep : List Char) : Nat → List Char → List Char → List (List Char)
  | _, acc, [] => [acc.reverse]
  | 0, acc, s => [acc.reverse ++ s]
  | Nat.succ n, acc, c :: t =>
    if sep ≠ [] ∧ sep.isPrefixOf (c :: t) then
      acc.reverse :: splitGo sep n [] (List.drop (sep.length - 1) t)
    else splitGo sep n (c :: acc) t

/-- Python `s.split(sep)` for a non-empty separator. -/
def pySplit (s sep : String) : List String :=
  if sep.data = [] then [s]
  else (splitGo sep.data s.data.length [] s.data).map fun l => ⟨l⟩

/-- Fuel-driven worker for `str.split(sep, 1)`: find the first occurrence. -/
def splitOnceGo (sep : List Char) : Nat → List Char → List Char →
    Option (List Char × List Char)
  | _, _, [] => none
  | 0, _, _ => none
  | Nat.succ n, acc, c :: t =>
    if sep ≠ [] ∧ sep.isPrefixOf (c :: t) then
      some (acc.reverse, List.drop (sep.length - 1) t)
    else splitOnceGo sep n (c :: acc) t

/-- Python `s.split(sep, 1)`: at most one split, at the first occurrence. -/
def pySplitOnce (s sep : String) : List String :=
  match splitOnceGo sep.data s.data.length [] s.data with
  | some (a, b) => [⟨a⟩, ⟨b⟩]
  | none => [s]

/-- Digit run to a number; `none` when empty or a non-digit appears. -/
def digitsToNat : List Char → Option Nat
  | [] => none
  | cs => if cs.all Char.isDigit then
      some (cs.foldl (fun acc c => acc * 10 + (c.toNat - 48)) 0)
    else none

/-- Python `int(s)` on the inputs the scrapers produce: strips whitespace,
accepts an optional sign followed by decimal digits, otherwise fails
(ValueError). -/
def pyInt (s : String) : Option Int :=
  match (pyStrip s).data with
  | '-' :: ds => (digitsToNat ds).map fun n => -(n : Int)
  | '+' :: ds => (digitsToNat ds).map fun n => (n : Int)
  | ds => (digitsToNat ds).map fun n => (n : Int)

/-! ### Normalization utilities (src/jcleasing/utils/helpers.py) -/

/-- Embedding of `shorten_price`: drop commas and dollar signs. -/
def shorten_price (price_str : String) : String :=
  pyReplace (pyReplace price_str "," "") "$" ""

/-- Embedding of `shorten_floorplan_type`: lower-case; inputs containing
"studio" collapse to `"studio"`; otherwise strip `s`, rewrite
`bath`/`bedroom`/`bed` to `b`, and strip spaces, commas and slashes —
in exactly the source's replacement order. -/
def shorten_floorplan_type (fpt : String) : String :=
  let f := pyLower fpt
  if pyContains f "studio" then "studio"
  else
    pyReplace (pyReplace (pyReplace (pyReplace (pyReplace (pyReplace
      (pyReplace f "s" "") "bath" "b") "bedroom" "b") "bed" "b")
      " " "") "," "") "/" ""

end JCLeasing

namespace JCLeasing

/-! ### Date parsing (src/jcleasing/utils/basics.py)

`datetime.strptime` is embedded for exactly the formats the source tries:
each `%`-directive becomes a token, numeric fields follow CPython's
regular expressions (`%m`: `1[0-2]|0[1-9]|[1-9]`; `%d`:
`3[01]|[12]\d|0[1-9]|[1-9]`; `%Y`: four digits; `%y`: two digits with the
68/69 century pivot), month names match case-insensitively, a space in
the format consumes one or more whitespace characters, the whole input
must be consumed, and the matched values must form a real calendar date.
-/

/-- A parsed calendar date. -/
structure PyDate where
  y : Nat
  m : Nat
  d : Nat
deriving Repr, DecidableEq

/-- Gregorian leap year. -/
def isLeap (y : Nat) : Bool := (y % 4 = 0 && y % 100 ≠ 0) || y % 400 = 0

/-- Days in a month. -/
def daysInMonth (y m : Nat) : Nat :=
  if m = 2 then (if isLeap y then 29 else 28)
  else if m = 4 || m = 6 || m = 9 || m = 11 then 30
  else 31

/-- Validity check performed by `datetime`'s constructor. -/
def validDate (y m d : Nat) : Bool :=
  1 ≤ y && y ≤ 9999 && 1 ≤ m && m ≤ 12 && 1 ≤ d && d ≤ daysInMonth y m

/-- Digit character to its value. -/
def digitVal (c : Char) : Nat := c.toNat - 48

/-- Match `%m` (month number, one or two digits, 1–12). -/
def matchMonthNum : List Char → Option (Nat × List Char)
  | '1' :: c :: rest =>
    if '0' ≤ c && c ≤ '2' then some (10 + digitVal c, rest)
    else some (1, c :: rest)
  | '0' :: c :: rest =>
    if '1' ≤ c && c ≤ '9' then some (digitVal c, rest) else none
  | c :: rest =>
    if '1' ≤ c && c ≤ '9' then some (digitVal c, rest) else none
  | [] => none

/-- Match `%d` (day number, one or two digits, 1–31). -/
def matchDayNum : List Char → Option (Nat × List Char)
  | '3' :: c :: rest =>
    if c = '0' || c = '1' then some (30 + digitVal c, rest)
    else some (3, c :: rest)
  | '1' :: c :: rest =>
    if c.isDigit then some (10 + digitVal c, rest) else some (1, c :: rest)
  | '2' :: c :: rest =>
    if c.isDigit then some (20 + digitVal c, rest) else some (2, c :: rest)
  | '0' :: c :: rest =>
    if '1' ≤ c && c ≤ '9' then some (digitVal c, rest) else none
  | c :: rest =>
    if '1' ≤ c && c ≤ '9' then some (digitVal c, rest) else none
  | [] => none

/-- Match `%Y`: exactly four digits. -/
def matchYear4 : List Char → Option (Nat × List Char)
  | a :: b :: c :: d :: rest =>
    if a.isDigit && b.isDigit && c.isDigit && d.isDigit then
      some (digitVal a * 1000 + digitVal b * 100 + digitVal c * 10 + digitVal d, rest)
    else none
  | _ => none

/-- Match `%y`: exactly two digits, pivoting 00–68 to 2000+ and 69–99 to 1900+. -/
def matchYear2 : List Char → Option (Nat × List Char)
  | a :: b :: rest =>
    if a.isDigit && b.isDigit then
      let v := digitVal a * 10 + digitVal b
      some ((if v ≤ 68 then 2000 + v else 1900 + v), rest)
    else none
  | _ => none

/-- Full English month names, numbered. -/
def monthNamesFull : List (Nat × String) :=
  [(1, "january"), (2, "february"), (3, "march"), (4, "april"), (5, "may"),
   (6, "june"), (7, "july"), (8, "august"), (9, "september"), (10, "october"),
   (11, "november"), (12, "december")]

/-- Abbreviated English month names, numbered. -/
def monthNamesAbbr : List (Nat × String) :=
  [(1, "jan"), (2, "feb"), (3, "mar"), (4, "apr"), (5, "may"), (6, "jun"),
   (7, "jul"), (8, "aug"), (9, "sep"), (10, "oct"), (11, "nov"), (12, "dec")]

/-- Case-insensitive match of one of the given month names at the front. -/
def matchMonthName (names : List (Nat × String)) (s : List Char) :
    Option (Nat × List Char) :=
  names.findSome? fun p =>
    if p.2.data.isPrefixOf (s.map Char.toLower) then
      some (p.1, s.drop p.2.data.length)
    else none

/-- One token of a `strptime` format string. -/
inductive FTok where
  | m | d | bigY | y | bigB | b
  | lit (c : Char)
  | sp
deriving Repr, DecidableEq

/-- State of a `strptime` match, with CPython's defaults (1900-01-01). -/
structure DState where
  y : Nat := 1900
  m : Nat := 1
  d : Nat := 1
deriving Repr, DecidableEq

/-- Run a token list against the input; the whole input must be consumed. -/
def runToks : List FTok → DState → List Char → Option DState
  | [], st, s => if s.isEmpty then some st else none
  | t :: ts, st, s =>
    match t with
    | .m => (matchMonthNum s).bind fun p => runToks ts { st with m := p.1 } p.2
    | .d => (matchDayNum s).bind fun p => runToks ts { st with d := p.1 } p.2
    | .bigY => (matchYear4 s).bind fun p => runToks ts { st with y := p.1 } p.2
    | .y => (matchYear2 s).bind fun p => runToks ts { st with y := p.1 } p.2
    | .bigB => (matchMonthName monthNamesFull s).bind fun p =>
        runToks ts { st with m := p.1 } p.2
    | .b => (matchMonthName monthNamesAbbr s).bind fun p =>
        runToks ts { st with m := p.1 } p.2
    | .lit c =>
      match s with
      | c' :: r => if c' = c then runToks ts st r else none
      | [] => none
    | .sp =>
      match s with
      | c :: r => if isPyWS c then runToks ts st (r.dropWhile isPyWS) else none
      | [] => none

/-- The embedding of `datetime.strptime(s, fmt)` followed by date validation. -/
def strptime (fmt : List FTok) (s : String) : Option PyDate :=
  (runToks fmt {} s.data).bind fun st =>
    if validDate st.y st.m st.d then some ⟨st.y, st.m, st.d⟩ else none

/-- Format `"%m/%d/%Y"`, tried first and separately by the source. -/
def fmtMDYslash : List FTok := [.m, .lit '/', .d, .lit '/', .bigY]

/-- The source's `date_formats` list, in order. -/
def dateFormats : List (List FTok) :=
  [[.bigY, .lit '-', .m, .lit '-', .d],
   [.m, .lit '-', .d, .lit '-', .bigY],
   [.d, .lit '/', .m, .lit '/', .bigY],
   [.bigY, .lit '/', .m, .lit '/', .d],
   [.bigB, .sp, .d, .lit ',', .sp, .bigY],
   [.b, .sp, .d, .lit ',', .sp, .bigY],
   [.m, .lit '/', .d, .lit '/', .y],
   [.m, .lit '-', .d, .lit '-', .y]]

/-- Zero-pad to two digits (`%m`/`%d` rendering in `strftime`). -/
def pad2 (n : Nat) : String := if n < 10 then "0" ++ toString n else toString n

/-- Render a date as `strftime("%Y-%m-%d")` does. -/
def renderYMD (dt : PyDate) : String :=
  toString dt.y ++ "-" ++ pad2 dt.m ++ "-" ++ pad2 dt.d

/-- The source's list of "available now" phrases. -/
def immediate_indicators : List String :=
  ["available", "available now", "now", "immediate", "today", "asap",
   "available immediately", "move-in ready"]

/-- First format of the complete ordered list (`%m/%d/%Y` first, then
`date_formats`) that parses the input. -/
def firstFormatMatch (s : String) : Option PyDate :=
  (fmtMDYslash :: dateFormats).findSome? fun f => strptime f s

/-- Embedding of `parse_availability_date`: empty/blank input, an
immediate-availability phrase, or an unparsable date all map to the
sentinel `"1970-01-01"`; otherwise the first matching format's date is
rendered as `YYYY-MM-DD`. The Python function's only other effect is a
logged warning in the fallback branch; it never raises. -/
def parse_availability_date (date_str : String) : String :=
  if pyStrip date_str = "" then "1970-01-01"
  else
    let ds := pyStrip date_str
    if immediate_indicators.contains (pyLower ds) then "1970-01-01"
    else
      match strptime fmtMDYslash ds with
      | some dt => renderYMD dt
      | none =>
        match dateFormats.findSome? (fun f => strptime f ds) with
        | some dt => renderYMD dt
        | none => "1970-01-01"

end JCLeasing

namespace JCLeasing

/-! ### Record model (src/jcleasing/models/units.py)

The dataclass declares `price : int` and `size : int`, but the adapters
also store strings in those slots (Python does not enforce the
annotations), so both are modelled as `JVal`. `__post_init__` turns a
null `prices` into `[]`; the embedding therefore uses `[]` as the
default directly. -/

/-- Embedding of the `PriceInfo` dataclass. -/
structure PriceInfo where
  price : JVal := .i 0
  price_range : String := ""
  date_fetched : String := ""
deriving Repr

/-- Embedding of the `UnitInfo` dataclass. -/
structure UnitInfo where
  unit : String := ""
  building : String := ""
  size : JVal := .i 0
  available_date : String := ""
  floorplan_type : String := ""
  floorplan_link : String := ""
  floorplan_note : String := ""
  prices : List PriceInfo := []
deriving Repr

/-! ### Python dicts as insertion-ordered association lists -/

/-- Python `d[k] = v`: overwrite in place when the key exists (keeping its
position), otherwise append at the end. -/
def dictSet (d : List (String × α)) (k : String) (v : α) : List (String × α) :=
  match d with
  | [] => [(k, v)]
  | (k', v') :: t => if k' = k then (k, v) :: t else (k', v') :: dictSet t k v

/-- Python `d.get(k)` / `d[k]`-style lookup. -/
def dictGet (d : List (String × α)) (k : String) : Option α :=
  match d with
  | [] => none
  | (k', v) :: t => if k' = k then some v else dictGet t k

/-- Keys of a dict, in insertion order (Python `d.keys()`). -/
def dictKeys (d : List (String × α)) : List String := d.map Prod.fst

/-- Values of a dict, in insertion order (Python `list(d.values())`). -/
def dictValues (d : List (String × α)) : List α := d.map Prod.snd

/-! ### Adapter registry (src/jcleasing/core/registry.py) -/

/-- A Python class object as far as `register` inspects it: whether it is a
(transitive) subclass of `BaseScraper`. Values that are not classes at
all would already fail inside `issubclass`, also with an exception. -/
structure PyClass where
  name : String
  inheritsBaseScraper : Bool
deriving Repr, DecidableEq

/-- Registry state: mapping from scraper name to scraper class. -/
abbrev Registry := List (String × PyClass)

/-- Embedding of `ScraperRegistry.register`: raise `ValueError` for a class
that does not inherit from `BaseScraper`, otherwise store it under the
given name. -/
def register (reg : Registry) (nm : String) (c : PyClass) :
    Except String Registry :=
  if ¬ c.inheritsBaseScraper then
    .error ("Scraper class " ++ c.name ++ " must inherit from BaseScraper")
  else
    .ok (dictSet reg nm c)

/-- State-passing view of `register`: the resulting registry contents and
the raised error message, if any. A raised error leaves the registry as
it was, because the `raise` happens before the assignment. -/
def registerState (reg : Registry) (nm : String) (c : PyClass) :
    Registry × Option String :=
  match register reg nm c with
  | .ok r => (r, none)
  | .error e => (reg, some e)

/-! ### Results writer (src/jcleasing/core/results.py)

`save` projects every `UnitInfo` to its `__dict__`, drops keys starting
with `"_"`, skips `None` units, converts nested `PriceInfo` objects the
same way, and `json.dump`s the result; `load` is `json.load` of the same
file. The file round trip through `json` is modelled as the identity on
the produced `JVal`. -/

/-- The `__dict__` of a `PriceInfo`, in attribute-assignment order. -/
def priceRawFields (p : PriceInfo) : List (String × JVal) :=
  [("price", p.price), ("price_range", .s p.price_range),
   ("date_fetched", .s p.date_fetched)]

/-- Drop fields whose name begins with the private marker `"_"`. -/
def dropPrivate (fs : List (String × JVal)) : List (String × JVal) :=
  fs.filter fun kv => ¬ (kv.1.data.take 1 = ['_'])

/-- The `__dict__` of a `UnitInfo` with the nested `prices` already
serialized, in attribute-assignment order. -/
def unitRawFields (u : UnitInfo) : List (String × JVal) :=
  [("unit", .s u.unit), ("building", .s u.building), ("size", u.size),
   ("available_date", .s u.available_date),
   ("floorplan_type", .s u.floorplan_type),
   ("floorplan_link", .s u.floorplan_link),
   ("floorplan_note", .s u.floorplan_note),
   ("prices", .arr (u.prices.map fun p => .obj (dropPrivate (priceRawFields p))))]

/-- Embedding of `ResultsManager._serialize_results`: per building, skip
`None` units and project the rest to public field mappings. -/
def serialize_results (results : List (String × List (Option UnitInfo))) :
    List (String × JVal) :=
  results.map fun bu =>
    (bu.1, .arr ((bu.2.filterMap id).map fun u => .obj (dropPrivate (unitRawFields u))))

/-- Embedding of `ResultsManager.save` up to the file system: the JSON
value written to disk. -/
def save (results : List (String × List (Option UnitInfo))) : JVal :=
  .obj (serialize_results results)

/-- Embedding of `ResultsManager.load` composed with a preceding `save` of
the same file: `json.load` returns exactly the value `json.dump` wrote. -/
def load_of_save (results : List (String × List (Option UnitInfo))) : JVal :=
  save results

end JCLeasing

namespace JCLeasing

/-! ### Orchestrator (src/jcleasing/core/runner.py)

An adapter is modelled by the outcome of `scraper_class(driver).get_units()`
for the run's shared driver: either a unit list or a raised exception.
`_filter_scrapers` builds its dict by iterating the Python *set*
`requested ∩ available`; set iteration order is hash-dependent, so the
embedding takes that enumeration as an explicit argument `enum`, and
`validEnum` says which enumerations are possible (each a duplicate-free
listing of exactly the valid names). -/

/-- Outcome of instantiating one scraper and calling `get_units`. -/
abbrev AdapterOutcome := Except String (List UnitInfo)

/-- The available scrapers with their run outcomes, in registry order. -/
abbrev ScraperMap := List (String × AdapterOutcome)

/-- Embedding of `ScrapingRunner._run_single_scraper`: any exception from
`get_units` is caught and logged and the scraper contributes `[]`. -/
def run_single_scraper (outcome : AdapterOutcome) : List UnitInfo :=
  match outcome with
  | .ok units => units
  | .error _ => []

/-- Embedding of `ScrapingRunner._filter_scrapers`: iterate the valid-name
set in the order `enum` and copy each entry from `available`. Unknown
requested names are only logged. -/
def filter_scrapers (available : ScraperMap) (enum : List String) : ScraperMap :=
  enum.foldl
    (fun acc n =>
      match dictGet available n with
      | some a => dictSet acc n a
      | none => acc)
    []

/-- The possible iteration orders of the Python set
`set(requested) & set(available)`: exactly the valid names, each once. -/
def validEnum (available : ScraperMap) (requested enum : List String) : Prop :=
  enum.Nodup
  ∧ (∀ n ∈ enum, n ∈ requested ∧ n ∈ dictKeys available)
  ∧ (∀ n ∈ requested, n ∈ dictKeys available → n ∈ enum)

/-- Embedding of `ScrapingRunner.run`: choose the scrapers to run (all of
them, or the filtered subset), return `{}` when none remain, otherwise
run each selected scraper with the per-scraper error wrapper. -/
def run (available : ScraperMap) (requested : Option (List String))
    (enum : List String) : List (String × List UnitInfo) :=
  let scrapers_to_run :=
    match requested with
    | none => available
    | some _ => filter_scrapers available enum
  if scrapers_to_run.isEmpty then []
  else scrapers_to_run.map fun p => (p.1, run_single_scraper p.2)

/-! ### Per-source collection (scrapers/grand.py and scrapers/columbus.py)

Fetching and DOM access are external; a raw listing enters the embedding
as the outcome of the row parser (`None` for a row that failed to parse
or whose parse was swallowed by the per-row handler). -/

/-- Embedding of the collection loop of `Grand235Scraper.get_units`: per
floorplan page, append every successfully parsed row to one list. -/
def grand_get_units (pages : List (List (Option UnitInfo))) : List UnitInfo :=
  (pages.map fun rows => rows.filterMap id).flatten

/-- Embedding of the collection loop of
`ColumbusScraper._get_units_in_floorplan`: store each parsed unit in a
dict keyed by its unit id (after back-filling `building`), then return
the dict's values. -/
def columbus_get_units_in_floorplan (building_name : String)
    (parsed : List (Option UnitInfo)) : List UnitInfo :=
  dictValues
    (parsed.foldl
      (fun d r =>
        match r with
        | none => d
        | some u => dictSet d u.unit { u with building := building_name })
      [])

/-- The last successfully parsed listing carrying unit id `k` (the
observation that last-write-wins semantics should keep). -/
def last_observation (k : String) (parsed : List (Option UnitInfo)) :
    Option UnitInfo :=
  (parsed.filterMap id).foldl (fun acc u => if u.unit = k then some u else acc) none

end JCLeasing

namespace JCLeasing

/-! ### AJAX response selection (src/jcleasing/scrapers/haus25.py)

A captured response enters the embedding as the outcome of
`json.loads` on its body: `some` parsed value, or `none` for a body
that is not JSON (which the code scores 0 via its bare `except`). -/

/-- The floorplan-specific fields `score_ajax_response` looks for. -/
def floorplan_fields : List String :=
  ["property_title", "beds", "baths", "sqft", "floorplan_name", "query_response"]

/-- Python `set(d.keys()) == {"success", "msg"}`. -/
def keySetEqSuccessMsg (ks : List String) : Bool :=
  ks.all (fun k => k = "success" || k = "msg")
    && ks.contains "success" && ks.contains "msg"

/-- Embedding of `score_ajax_response`: non-dicts score 0; dicts score 10
per expected field present plus 50 when `query_response` is a non-empty
list, except that a dict whose key set is exactly `{success, msg}` is
forced to score 1. -/
def score_ajax_response (parsed : JVal) : Nat :=
  match parsed with
  | .obj fs =>
    let ks := fs.map Prod.fst
    let fieldScore := 10 * (floorplan_fields.filter (fun fld => ks.contains fld)).length
    let qr := (dictGet fs "query_response").getD (.arr [])
    let bonus := match qr with | .arr xs => if 0 < xs.length then 50 else 0 | _ => 0
    if keySetEqSuccessMsg ks then 1 else fieldScore + bonus
  | _ => 0

/-- Score of a captured response body after the `json.loads` attempt. -/
def score_raw (r : Option JVal) : Nat :=
  match r with
  | some parsed => score_ajax_response parsed
  | none => 0

/-- Insert into a list sorted by descending score, before the first entry
whose score is not larger — the position a stable descending sort gives
an element that precedes the list's elements in the original order. -/
def insertByScoreDesc (x : Nat × Option JVal) :
    List (Nat × Option JVal) → List (Nat × Option JVal)
  | [] => [x]
  | y :: t => if x.1 < y.1 then y :: insertByScoreDesc x t else x :: y :: t

/-- Stable descending sort by score (the effect of Python's stable
`list.sort(key=..., reverse=True)` on the scored list). -/
def sortScoredDesc : List (Nat × Option JVal) → List (Nat × Option JVal)
  | [] => []
  | x :: t => insertByScoreDesc x (sortScoredDesc t)

/-- Embedding of `choose_best_ajax_response`: `None` for an empty capture,
otherwise score every response and keep the head of the stable
descending sort. The longest-response fallback in the source is dead
code, since the scored list is non-empty whenever `responses` is. -/
def choose_best_ajax_response (responses : List (Option JVal)) :
    Option (Option JVal) :=
  match responses with
  | [] => none
  | _ =>
    ((sortScoredDesc (responses.map fun r => (score_raw r, r))).head?).map Prod.snd

/-! ### Two-layout unit parsing (scrapers/columbus.py and main.py) -/

/-- Python exception kinds the parser can raise. -/
inductive PyErr where
  | valueError
  | indexError
deriving Repr, DecidableEq

/-- A DOM element as the parser sees it: its rendered text and its
`innerHTML` attribute. -/
structure WebElem where
  text : String
  innerHTML : String
deriving Repr, DecidableEq

/-- Option to `Except`, tagging the failure with a Python exception kind. -/
def ofOption (o : Option α) (e : PyErr) : Except PyErr α :=
  match o with
  | some v => .ok v
  | none => .error e

/-- Fuel-driven worker for `re.sub(r"<[^>]+>", "", text)`: at `<`, find the
next `>`; when at least one character lies between, drop through it,
otherwise the `<` is kept. -/
def removeTagsGo : Nat → List Char → List Char
  | 0, s => s
  | _ + 1, [] => []
  | n + 1, c :: t =>
    if c = '<' then
      match t.findIdx? (fun x => x = '>') with
      | some i => if 1 ≤ i then removeTagsGo n (t.drop (i + 1)) else c :: removeTagsGo n t
      | none => c :: removeTagsGo n t
    else c :: removeTagsGo n t

/-- Embedding of `_remove_html_tags` / `_remove_brackets`. -/
def removeTags (s : String) : String := ⟨removeTagsGo s.data.length s.data⟩

/-- The primary "4-line" layout: split the rendered text into exactly four
lines, split price from size/type at the first space, split size from
floorplan type at `" sq. ft. "`, and take the second word of the unit
line. Failed tuple unpacking raises ValueError; the missing second word
raises IndexError. Yields `(aval, unit, price, size, floorplan_type)`. -/
def layout1 (text : String) :
    Except PyErr (String × String × String × String × String) :=
  match pySplit text "\n" with
  | [aval, unit0, pnst, _x] =>
    match pySplitOnce pnst " " with
    | [price, size_type] =>
      match pySplit size_type " sq. ft. " with
      | [size, fpt] =>
        match (pySplit unit0 " ").drop 1 with
        | u1 :: _ => .ok (aval, u1, price, size, fpt)
        | [] => .error .indexError
      | _ => .error .valueError
    | _ => .error .valueError
  | _ => .error .valueError

/-- The stripped non-empty lines of the tag-free `innerHTML`. -/
def layout2_vals (html : String) : List String :=
  ((pySplit (removeTags (pyStrip html)) "\n").map pyStrip).filter fun x => x ≠ ""

/-- The secondary HTML-fragment layout: 5 stripped lines (availability and
unit share the first, split at `"unit"`) or 6 stripped lines. `none`
means neither count matched. -/
def layout2 (html : String) :
    Except PyErr (Option (String × String × String × String × String)) :=
  match layout2_vals html with
  | [aval_unit, price, size, fpt, _x] =>
    match pySplit (pyLower aval_unit) "unit" with
    | [a, u] => .ok (some (pyStrip a, pyStrip u, price, size, fpt))
    | _ => .error .valueError
  | [aval, unit, price, size, fpt, _x] => .ok (some (aval, unit, price, size, fpt))
  | _ => .ok none

/-- Render `f"-{v:02d}"`-style two-digit zero padding for an integer. -/
def pad2Int (i : Int) : String :=
  if 0 ≤ i ∧ i < 10 then "0" ++ toString i else toString i

/-- Availability-date normalization in `ColumbusScraper._parse_unit_html`:
"now" anywhere (case-insensitive) gives the sentinel, otherwise the
second word is split at `/` into month/day/year and re-rendered. -/
def parse_aval_columbus (aval : String) : Except PyErr String :=
  if pyContains (pyLower aval) "now" then .ok "1900-01-01"
  else
    match (pySplit aval " ").drop 1 with
    | aval_date :: _ =>
      match pySplit aval_date "/" with
      | [m, d, y] => do
        let mi ← ofOption (pyInt m) .valueError
        let di ← ofOption (pyInt d) .valueError
        let yi ← ofOption (pyInt y) .valueError
        .ok (toString yi ++ "-" ++ pad2Int mi ++ "-" ++ pad2Int di)
      | _ => .error .valueError
    | [] => .error .indexError

/-- Availability-date normalization in `main.py`'s `_parse_unit_html`: the
"now" branch substitutes `"01/01/1900"` and then runs the same split. -/
def parse_aval_main (aval : String) : Except PyErr String := do
  let aval_date ←
    (if pyContains (pyLower aval) "now" then (.ok "01/01/1900" : Except PyErr String)
     else
       match (pySplit aval " ").drop 1 with
       | d :: _ => .ok d
       | [] => .error .indexError)
  match pySplit aval_date "/" with
  | [m, d, y] => do
    let mi ← ofOption (pyInt m) .valueError
    let di ← ofOption (pyInt d) .valueError
    let yi ← ofOption (pyInt y) .valueError
    .ok (toString yi ++ "-" ++ pad2Int mi ++ "-" ++ pad2Int di)
  | _ => .error .valueError

/-- Field cleanup and record construction shared suffix of
`ColumbusScraper._parse_unit_html` (`ts` is the wall-clock timestamp
`get_current_timestamp()` returns). -/
def build_unit_columbus (ts : String)
    (f : String × String × String × String × String) : Except PyErr UnitInfo := do
  let (aval, unit, price, size, fpt) := f
  let available_date ← parse_aval_columbus aval
  let unitC := pyStrip (pyReplace (pyLower unit) "unit" "")
  let sizeC := pyStrip (pyReplace (pyReplace (pyLower size) "sq. ft." "") "," "")
  let priceN ← ofOption (pyInt (shorten_price price)) .valueError
  .ok { unit := unitC, size := .s sizeC,
        floorplan_type := shorten_floorplan_type fpt,
        available_date := available_date,
        prices := [{ price := .i priceN, price_range := "", date_fetched := ts }] }

/-- Field cleanup and record construction suffix of `main.py`'s
`_parse_unit_html` (price is kept as the cleaned string; `ts` is the
module-level `date_fetched` timestamp). -/
def build_unit_main (ts : String)
    (f : String × String × String × String × String) : Except PyErr UnitInfo := do
  let (aval, unit, price, size, fpt) := f
  let available_date ← parse_aval_main aval
  let unitC := pyStrip (pyReplace (pyLower unit) "unit" "")
  let sizeC := pyReplace (pyStrip (pyReplace (pyLower size) "sq. ft." "")) "," ""
  .ok { unit := unitC, size := .s sizeC,
        floorplan_type := shorten_floorplan_type fpt,
        available_date := available_date,
        prices := [{ price := .s (shorten_price price), price_range := "",
                     date_fetched := ts }] }

/-- The body of `ColumbusScraper._parse_unit_html` before its outer
`except Exception`: try the 4-line layout, fall back to the
HTML-fragment layout only on ValueError, return `none` when the
fallback matches neither 5 nor 6 lines. -/
def columbus_parse_inner (ts : String) (e : WebElem) :
    Except PyErr (Option UnitInfo) := do
  let fieldsO ←
    (match layout1 e.text with
     | .ok f => (.ok (some f) : Except PyErr (Option (String × String × String × String × String)))
     | .error .valueError => layout2 e.innerHTML
     | .error err => .error err)
  match fieldsO with
  | none => .ok none
  | some f => do
    let u ← build_unit_columbus ts f
    .ok (some u)

/-- Embedding of `ColumbusScraper._parse_unit_html` including its outer
`except Exception` handler, which converts any raised error into `None`. -/
def columbus_parse_unit_html (ts : String) (e : WebElem) :
    Except PyErr (Option UnitInfo) :=
  match columbus_parse_inner ts e with
  | .ok v => .ok v
  | .error _ => .ok none

/-- Embedding of `main.py`'s `_parse_unit_html`: same two-layout attempt,
but a fallback matching neither 5 nor 6 lines raises ValueError, and
nothing is caught at the function boundary. -/
def main_parse_unit_html (ts : String) (e : WebElem) : Except PyErr UnitInfo := do
  let fieldsO ←
    (match layout1 e.text with
     | .ok f => (.ok (some f) : Except PyErr (Option (String × String × String × String × String)))
     | .error .valueError => layout2 e.innerHTML
     | .error err => .error err)
  match fieldsO with
  | none => .error .valueError
  | some f => build_unit_main ts f

end JCLeasing


namespace JCLeasing

/-! ### Dictionary lemmas -/

theorem dictKeys_cons (p : String × α) (t : List (String × α)) :
    dictKeys (p :: t) = p.1 :: dictKeys t := rfl

theorem dictGet_of_mem {l : List (String × α)} {k : String} {v : α}
    (hn : (dictKeys l).Nodup) (hm : (k, v) ∈ l) : dictGet l k = some v := by
  induction l with
  | nil => cases hm
  | cons h t ih =>
    rw [dictKeys_cons] at hn
    rcases List.mem_cons.mp hm with he | hmem
    · cases he
      simp [dictGet]
    · have hkt : k ∈ dictKeys t := List.mem_map_of_mem Prod.fst hmem
      have hk : h.1 ≠ k := fun he => (List.nodup_cons.mp hn).1 (he ▸ hkt)
      simp only [dictGet, hk, if_false]
      exact ih (List.nodup_cons.mp hn).2 hmem

theorem dictGet_map (f : α → β) (l : List (String × α)) (k : String) :
    dictGet (l.map fun p => (p.1, f p.2)) k = (dictGet l k).map f := by
  induction l with
  | nil => rfl
  | cons h t ih =>
    by_cases hk : h.1 = k
    · simp [dictGet, hk]
    · simp [dictGet, hk, ih]

theorem dictGet_none_of_not_mem {l : List (String × α)} {k : String}
    (h : k ∉ dictKeys l) : dictGet l k = none := by
  induction l with
  | nil => rfl
  | cons hd t ih =>
    rw [dictKeys_cons] at h
    have h1 : hd.1 ≠ k := fun he => h (he ▸ List.mem_cons_self _ _)
    have h2 : k ∉ dictKeys t := fun hm => h (List.mem_cons_of_mem _ hm)
    simp [dictGet, h1, ih h2]

theorem dictGet_dictSet_self (d : List (String × α)) (k : String) (v : α) :
    dictGet (dictSet d k v) k = some v := by
  induction d with
  | nil => simp [dictSet, dictGet]
  | cons h t ih =>
    by_cases hk : h.1 = k
    · simp [dictSet, hk, dictGet]
    · simp [dictSet, hk, dictGet, ih]

theorem dictGet_dictSet_ne (d : List (String × α)) {k k' : String} (v : α)
    (h : k' ≠ k) : dictGet (dictSet d k v) k' = dictGet d k' := by
  have h2 : k ≠ k' := Ne.symm h
  induction d with
  | nil => simp [dictSet, dictGet, h2]
  | cons hd t ih =>
    by_cases hk : hd.1 = k
    · subst hk
      simp [dictSet, dictGet, h2]
    · simp [dictSet, hk, dictGet, ih]

theorem dictSet_cons_self (hd : String × α) (t : List (String × α)) (v : α) :
    dictSet (hd :: t) hd.1 v = (hd.1, v) :: t := by
  simp [dictSet]

theorem dictSet_cons_ne (hd : String × α) (t : List (String × α)) {k : String}
    (v : α) (h : hd.1 ≠ k) : dictSet (hd :: t) k v = hd :: dictSet t k v := by
  simp [dictSet, h]

theorem mem_dictKeys_dictSet (d : List (String × α)) (k k' : String) (v : α) :
    k' ∈ dictKeys (dictSet d k v) ↔ k' ∈ dictKeys d ∨ k' = k := by
  induction d with
  | nil => simp [dictSet, dictKeys]
  | cons hd t ih =>
    by_cases hk : hd.1 = k
    · subst hk
      rw [dictSet_cons_self, dictKeys_cons, dictKeys_cons]
      simp only [List.mem_cons]
      tauto
    · rw [dictSet_cons_ne hd t v hk, dictKeys_cons, dictKeys_cons]
      simp only [List.mem_cons, ih]
      tauto

theorem nodup_dictKeys_dictSet (d : List (String × α)) (k : String) (v : α)
    (h : (dictKeys d).Nodup) : (dictKeys (dictSet d k v)).Nodup := by
  induction d with
  | nil => simp [dictSet, dictKeys]
  | cons hd t ih =>
    rw [dictKeys_cons] at h
    rcases List.nodup_cons.mp h with ⟨hh, ht⟩
    by_cases hk : hd.1 = k
    · subst hk
      rw [dictSet_cons_self, dictKeys_cons]
      exact List.nodup_cons.mpr ⟨hh, ht⟩
    · rw [dictSet_cons_ne hd t v hk, dictKeys_cons]
      refine List.nodup_cons.mpr ⟨?_, ih ht⟩
      intro hmem
      rcases (mem_dictKeys_dictSet t k hd.1 v).mp hmem with hm | hm
      · exact hh hm
      · exact hk hm

theorem dictSet_of_not_mem {d : List (String × α)} {k : String} (v : α)
    (h : k ∉ dictKeys d) : dictSet d k v = d ++ [(k, v)] := by
  induction d with
  | nil => rfl
  | cons hd t ih =>
    rw [dictKeys_cons] at h
    have h1 : hd.1 ≠ k := fun he => h (he ▸ List.mem_cons_self _ _)
    have h2 : k ∉ dictKeys t := fun hm => h (List.mem_cons_of_mem _ hm)
    simp [dictSet, h1, ih h2]

end JCLeasing

namespace JCLeasing

/-! ### Orchestrator lemmas -/

theorem dictKeys_append (a b : List (String × α)) :
    dictKeys (a ++ b) = dictKeys a ++ dictKeys b := by
  simp [dictKeys]

theorem dictKeys_map_snd (f : α → β) (l : List (String × α)) :
    dictKeys (l.map fun p => (p.1, f p.2)) = dictKeys l := by
  induction l with
  | nil => rfl
  | cons h t ih =>
    show h.1 :: dictKeys (t.map fun p => (p.1, f p.2)) = h.1 :: dictKeys t
    rw [ih]

theorem dictGet_isSome_of_mem_keys {l : List (String × α)} {k : String}
    (h : k ∈ dictKeys l) : ∃ v, dictGet l k = some v := by
  induction l with
  | nil => cases h
  | cons hd t ih =>
    by_cases hk : hd.1 = k
    · exact ⟨hd.2, by simp [dictGet, hk]⟩
    · rw [dictKeys_cons] at h
      rcases List.mem_cons.mp h with he | hm
      · exact absurd he.symm hk
      · rcases ih hm with ⟨v, hv⟩
        exact ⟨v, by simp [dictGet, hk, hv]⟩

theorem run_none_eq (available : ScraperMap) :
    run available none [] = available.map fun p => (p.1, run_single_scraper p.2) := by
  cases available with
  | nil => rfl
  | cons h t => simp [run]

theorem filter_scrapers_go (available : ScraperMap) :
    ∀ (enum : List String) (acc : ScraperMap), enum.Nodup →
      (∀ n ∈ enum, n ∉ dictKeys acc) →
      enum.foldl
        (fun acc n =>
          match dictGet available n with
          | some a => dictSet acc n a
          | none => acc) acc
      = acc ++ enum.filterMap fun n => (dictGet available n).map fun a => (n, a) := by
  intro enum
  induction enum with
  | nil => intro acc _ _; simp
  | cons n t ih =>
    intro acc hnd hfresh
    rcases List.nodup_cons.mp hnd with ⟨hnt, ht⟩
    have hn : n ∉ dictKeys acc := hfresh n (List.mem_cons_self _ _)
    cases hg : dictGet available n with
    | none =>
      simp only [List.foldl_cons, hg, List.filterMap_cons]
      exact ih acc ht fun m hm => hfresh m (List.mem_cons_of_mem _ hm)
    | some a =>
      simp only [List.foldl_cons, hg, List.filterMap_cons, Option.map_some]
      rw [dictSet_of_not_mem a hn]
      rw [ih (acc ++ [(n, a)]) ht ?_]
      · simp
      · intro m hm
        rw [dictKeys_append]
        intro hmem
        rcases List.mem_append.mp hmem with h1 | h1
        · exact hfresh m (List.mem_cons_of_mem _ hm) h1
        · have : m = n := by simpa [dictKeys] using h1
          exact hnt (this ▸ hm)

theorem filter_scrapers_eq (available : ScraperMap) (enum : List String)
    (hnd : enum.Nodup) :
    filter_scrapers available enum
      = enum.filterMap fun n => (dictGet available n).map fun a => (n, a) := by
  have h := filter_scrapers_go available enum [] hnd (by simp [dictKeys])
  simpa [filter_scrapers] using h

theorem dictKeys_filterMap_get (available : ScraperMap) (enum : List String)
    (h : ∀ n ∈ enum, n ∈ dictKeys available) :
    dictKeys (enum.filterMap fun n => (dictGet available n).map fun a => (n, a))
      = enum := by
  induction enum with
  | nil => rfl
  | cons n t ih =>
    rcases dictGet_isSome_of_mem_keys (h n (List.mem_cons_self _ _)) with ⟨v, hv⟩
    have ht := ih fun m hm => h m (List.mem_cons_of_mem _ hm)
    simp [List.filterMap_cons, hv, dictKeys_cons, ht]

theorem run_some_keys (available : ScraperMap) (req enum : List String)
    (h : validEnum available req enum) :
    (run available (some req) enum).map Prod.fst = enum := by
  obtain ⟨hnd, hmem, _⟩ := h
  have hf : dictKeys (filter_scrapers available enum) = enum := by
    rw [filter_scrapers_eq available enum hnd]
    exact dictKeys_filterMap_get available enum fun n hn => (hmem n hn).2
  by_cases he : (filter_scrapers available enum).isEmpty
  · have hfe : filter_scrapers available enum = [] := by
      cases hx : filter_scrapers available enum with
      | nil => rfl
      | cons a b => rw [hx] at he; simp [List.isEmpty] at he
    have : enum = [] := by rw [← hf, hfe]; rfl
    simp [run, hfe, this, filter_scrapers]
  · have : run available (some req) enum
        = (filter_scrapers available enum).map fun p => (p.1, run_single_scraper p.2) := by
      simp [run, he]
    rw [this]
    exact (dictKeys_map_snd run_single_scraper (filter_scrapers available enum)).trans hf

end JCLeasing

namespace JCLeasing

instance validEnum.decidable (available : ScraperMap) (req enum : List String) :
    Decidable (validEnum available req enum) := by
  unfold validEnum
  exact instDecidableAnd

/-- C1: for every effective scraper map, `run` (a total function — adapter
failures are absorbed, never re-raised) returns a mapping whose keys are
exactly the adapters' names; an adapter whose `get_units` raised maps to
the empty list, and every other adapter maps to exactly the unit list it
would produce on its own (`run_single_scraper` of its outcome). -/
theorem runner_partial_failure (available : ScraperMap) :
    ((run available none []).map Prod.fst = available.map Prod.fst)
    ∧ (∀ nm e, (dictKeys available).Nodup → (nm, Except.error e) ∈ available →
        dictGet (run available none []) nm = some [])
    ∧ (∀ nm us, (dictKeys available).Nodup → (nm, Except.ok us) ∈ available →
        dictGet (run available none []) nm = some us) := by
  refine ⟨?_, ?_, ?_⟩
  · rw [run_none_eq]
    exact dictKeys_map_snd run_single_scraper available
  · intro nm e hn hm
    rw [run_none_eq, dictGet_map, dictGet_of_mem hn hm]
    rfl
  · intro nm us hn hm
    rw [run_none_eq, dictGet_map, dictGet_of_mem hn hm]
    rfl

/-- Witness for C1: the spec's three-adapter scenario — the second adapter
raises, its entry is the empty list, and the first adapter's entry is
exactly its own output. -/
theorem runner_partial_failure_witness :
    dictGet (run [("first", Except.ok [({ unit := "101" } : UnitInfo)]),
                  ("second", Except.error "boom"),
                  ("third", Except.ok [])] none []) "second" = some []
    ∧ dictGet (run [("first", Except.ok [({ unit := "101" } : UnitInfo)]),
                  ("second", Except.error "boom"),
                  ("third", Except.ok [])] none []) "first"
        = some [({ unit := "101" } : UnitInfo)] := by
  constructor
  · exact (runner_partial_failure _).2.1 "second" "boom" (by decide)
      (List.mem_cons_of_mem _ (List.mem_cons_self _ _))
  · exact (runner_partial_failure _).2.2 "first" [({ unit := "101" } : UnitInfo)]
      (by decide) (List.mem_cons_self _ _)

/-- C4: `run` on a requested subset keeps exactly the requested names that
are registered (unknown names are skipped, with no exception raised and
no effect beyond a log line), an empty effective set yields the empty
mapping, and with no subset every registered adapter runs. The `enum`
argument ranges over the possible iteration orders of the Python set of
valid names. -/
theorem run_effective_set (available : ScraperMap) (req enum : List String)
    (h : validEnum available req enum) :
    (∀ n, n ∈ (run available (some req) enum).map Prod.fst ↔
        (n ∈ req ∧ n ∈ dictKeys available))
    ∧ (enum = [] → run available (some req) enum = [])
    ∧ run available none [] = available.map fun p => (p.1, run_single_scraper p.2) := by
  obtain ⟨hnd, hmem, hcomp⟩ := h
  refine ⟨?_, ?_, run_none_eq available⟩
  · intro n
    rw [run_some_keys available req enum ⟨hnd, hmem, hcomp⟩]
    exact ⟨fun hn => hmem n hn, fun hp => hcomp n hp.1 hp.2⟩
  · intro he
    subst he
    simp [run, filter_scrapers]

/-- Witness for C4: requesting a real adapter together with an unknown name
runs only the real adapter. -/
theorem run_effective_set_witness :
    validEnum [("realAdapter", (Except.ok [] : AdapterOutcome))]
      ["realAdapter", "doesNotExist"] ["realAdapter"]
    ∧ (run [("realAdapter", (Except.ok [] : AdapterOutcome))]
        (some ["realAdapter", "doesNotExist"]) ["realAdapter"]).map Prod.fst
        = ["realAdapter"]
    ∧ ¬ "doesNotExist" ∈ (run [("realAdapter", (Except.ok [] : AdapterOutcome))]
        (some ["realAdapter", "doesNotExist"]) ["realAdapter"]).map Prod.fst := by
  have h := run_effective_set [("realAdapter", (Except.ok [] : AdapterOutcome))]
    ["realAdapter", "doesNotExist"] ["realAdapter"] (by decide)
  refine ⟨by decide, ?_, ?_⟩
  · rw [run_some_keys _ _ _ (by decide)]
  · intro hx
    exact absurd ((h.1 "doesNotExist").mp hx).2 (by decide)

/-- C7 counterexample: for a two-adapter registry and a requested subset
covering both, the iteration order `["b", "a"]` of the valid-name set is
as possible as `["a", "b"]` (`validEnum` holds for both, and CPython
realises either depending on the randomized string hashes), yet it makes
`run` invoke the adapters in non-registry order — so the claim that a
caller-supplied subset is invoked in registry order, deterministically,
fails. -/
theorem subset_order_counterexample :
    validEnum [("a", (Except.ok [] : AdapterOutcome)), ("b", Except.ok [])]
      ["a", "b"] ["b", "a"]
    ∧ validEnum [("a", (Except.ok [] : AdapterOutcome)), ("b", Except.ok [])]
      ["a", "b"] ["a", "b"]
    ∧ (run [("a", (Except.ok [] : AdapterOutcome)), ("b", Except.ok [])]
        (some ["a", "b"]) ["b", "a"]).map Prod.fst
      ≠ [("a", (Except.ok [] : AdapterOutcome)), ("b", Except.ok [])].map Prod.fst
    ∧ (run [("a", (Except.ok [] : AdapterOutcome)), ("b", Except.ok [])]
        (some ["a", "b"]) ["b", "a"]).map Prod.fst
      ≠ (run [("a", (Except.ok [] : AdapterOutcome)), ("b", Except.ok [])]
        (some ["a", "b"]) ["a", "b"]).map Prod.fst := by
  exact ⟨by decide, by decide, by decide, by decide⟩

/-- C7 amended: with no subset, `run` invokes the adapters exactly in
registry order; with a requested subset it invokes them in the
iteration order of the valid-name set (`enum`), which is hash-dependent
and need not match registry order. -/
theorem run_invocation_order :
    (∀ available : ScraperMap,
      (run available none []).map Prod.fst = available.map Prod.fst)
    ∧ (∀ (available : ScraperMap) (req enum : List String),
        validEnum available req enum →
        (run available (some req) enum).map Prod.fst = enum) := by
  constructor
  · intro available
    rw [run_none_eq]
    exact dictKeys_map_snd run_single_scraper available
  · intro available req enum h
    exact run_some_keys available req enum h

/-- Witness for C7's amended statement at a concrete registry and subset. -/
theorem run_invocation_order_witness :
    validEnum [("a", (Except.ok [] : AdapterOutcome)), ("b", Except.ok [])]
      ["b"] ["b"]
    ∧ (run [("a", (Except.ok [] : AdapterOutcome)), ("b", Except.ok [])]
        (some ["b"]) ["b"]).map Prod.fst = ["b"] :=
  ⟨by decide, run_invocation_order.2 _ _ _ (by decide)⟩

end JCLeasing

namespace JCLeasing

/-- C2: `parse_availability_date` (a total Lean function, mirroring that the
Python function never raises) maps blank input, the fixed
immediate-availability phrases (case-insensitively) and unmatchable
input to the sentinel `"1970-01-01"`, and otherwise renders the first
format of the fixed ordered list that parses; the spec's five probe
inputs evaluate as stated. -/
theorem parse_availability_date_spec :
    (∀ s : String, pyStrip s = "" → parse_availability_date s = "1970-01-01")
    ∧ (∀ s : String,
        immediate_indicators.contains (pyLower (pyStrip s)) = true →
        parse_availability_date s = "1970-01-01")
    ∧ (∀ s : String, pyStrip s ≠ "" →
        immediate_indicators.contains (pyLower (pyStrip s)) = false →
        parse_availability_date s
          = match firstFormatMatch (pyStrip s) with
            | some dt => renderYMD dt
            | none => "1970-01-01")
    ∧ parse_availability_date "" = "1970-01-01"
    ∧ parse_availability_date "Now" = "1970-01-01"
    ∧ parse_availability_date "03/15/2025" = "2025-03-15"
    ∧ parse_availability_date "January 5, 2025" = "2025-01-05"
    ∧ parse_availability_date "garbage" = "1970-01-01" := by
  refine ⟨?_, ?_, ?_, by decide, by decide, by decide, by decide, by decide⟩
  · intro s h
    simp [parse_availability_date, h]
  · intro s h
    by_cases h0 : pyStrip s = ""
    · simp [parse_availability_date, h0]
    · have hmem : pyLower (pyStrip s) ∈ immediate_indicators := by
        simpa using h
      simp [parse_availability_date, h0, hmem]
  · intro s h0 h1
    simp only [parse_availability_date, if_neg h0, h1, Bool.false_eq_true,
      if_false]
    cases hm : strptime fmtMDYslash (pyStrip s) with
    | some dt => simp [firstFormatMatch, List.findSome?_cons, hm]
    | none => simp [firstFormatMatch, List.findSome?_cons, hm]

/-- Witness for C2 at concrete inputs: a blank string, an immediate phrase,
and a parseable date. -/
theorem parse_availability_date_spec_witness :
    parse_availability_date " " = "1970-01-01"
    ∧ parse_availability_date "Now" = "1970-01-01"
    ∧ parse_availability_date "03/15/2025"
        = match firstFormatMatch (pyStrip "03/15/2025") with
          | some dt => renderYMD dt
          | none => "1970-01-01" :=
  ⟨parse_availability_date_spec.1 " " (by decide),
   parse_availability_date_spec.2.1 "Now" (by decide),
   parse_availability_date_spec.2.2.1 "03/15/2025" (by decide) (by decide)⟩

/-- C9: every input containing "studio" in any letter case (equivalently,
whose lower-casing contains "studio") maps to exactly `"studio"`, and
the two probe inputs map to `"2b2b"` and `"1b"`. -/
theorem shorten_floorplan_type_spec :
    (∀ s : String, pyContains (pyLower s) "studio" = true →
      shorten_floorplan_type s = "studio")
    ∧ shorten_floorplan_type "2 Bed, 2 Bath" = "2b2b"
    ∧ shorten_floorplan_type "1 Bedroom" = "1b" := by
  refine ⟨?_, by decide, by decide⟩
  intro s h
  simp [shorten_floorplan_type, h]

/-- Witness for C9 at a mixed-case input. -/
theorem shorten_floorplan_type_spec_witness :
    pyContains (pyLower "StUdIo Loft") "studio" = true
    ∧ shorten_floorplan_type "StUdIo Loft" = "studio" :=
  ⟨by decide, shorten_floorplan_type_spec.1 "StUdIo Loft" (by decide)⟩

/-- C10: `register` rejects a class that does not inherit from
`BaseScraper` with the descriptive ValueError and leaves the registry
unchanged; a conforming class is accepted and stored under the given
name. -/
theorem register_contract (reg : Registry) (nm : String) (c : PyClass) :
    (c.inheritsBaseScraper = false →
      registerState reg nm c
        = (reg, some ("Scraper class " ++ c.name ++ " must inherit from BaseScraper")))
    ∧ (c.inheritsBaseScraper = true →
      registerState reg nm c = (dictSet reg nm c, none)
      ∧ dictGet (dictSet reg nm c) nm = some c) := by
  constructor
  · intro h
    simp [registerState, register, h]
  · intro h
    exact ⟨by simp [registerState, register, h], dictGet_dictSet_self reg nm c⟩

/-- Witness for C10: a rejected non-subclass and an accepted scraper class. -/
theorem register_contract_witness :
    registerState [] "bad" ⟨"NotAScraper", false⟩
      = ([], some "Scraper class NotAScraper must inherit from BaseScraper")
    ∧ registerState [] "235grand" ⟨"Grand235Scraper", true⟩
      = ([("235grand", ⟨"Grand235Scraper", true⟩)], none)
    ∧ dictGet (dictSet [] "235grand" (⟨"Grand235Scraper", true⟩ : PyClass)) "235grand"
      = some ⟨"Grand235Scraper", true⟩ := by
  refine ⟨?_, ?_, ?_⟩
  · exact (register_contract [] "bad" ⟨"NotAScraper", false⟩).1 rfl
  · exact ((register_contract [] "235grand" ⟨"Grand235Scraper", true⟩).2 rfl).1
  · exact ((register_contract [] "235grand" ⟨"Grand235Scraper", true⟩).2 rfl).2

end JCLeasing

namespace JCLeasing

/-! ### Deduplication lemmas (C3) -/

theorem mem_dictSet {d : List (String × α)} {k : String} {v : α} {p : String × α}
    (h : p ∈ dictSet d k v) : p ∈ d ∨ p = (k, v) := by
  induction d with
  | nil => simpa [dictSet] using h
  | cons hd t ih =>
    by_cases hk : hd.1 = k
    · subst hk
      rw [dictSet_cons_self] at h
      rcases List.mem_cons.mp h with he | hm
      · exact Or.inr he
      · exact Or.inl (List.mem_cons_of_mem _ hm)
    · rw [dictSet_cons_ne hd t v hk] at h
      rcases List.mem_cons.mp h with he | hm
      · exact Or.inl (he ▸ List.mem_cons_self _ _)
      · rcases ih hm with h1 | h1
        · exact Or.inl (List.mem_cons_of_mem _ h1)
        · exact Or.inr h1

theorem lastObs_acc (k : String) (l : List UnitInfo) (acc : Option UnitInfo) :
    l.foldl (fun a u => if u.unit = k then some u else a) acc
      = ((l.foldl (fun a u => if u.unit = k then some u else a) none).orElse
          fun _ => acc) := by
  induction l generalizing acc with
  | nil => rfl
  | cons u t ih =>
    simp only [List.foldl_cons]
    by_cases hu : u.unit = k
    · rw [if_pos hu, if_pos hu, ih (some u)]
      cases t.foldl (fun a u => if u.unit = k then some u else a) none <;> rfl
    · rw [if_neg hu, if_neg hu, ih acc]

theorem last_observation_cons_none (k : String) (t : List (Option UnitInfo)) :
    last_observation k (none :: t) = last_observation k t := by
  simp [last_observation, List.filterMap_cons]

theorem last_observation_cons_some (k : String) (u : UnitInfo)
    (t : List (Option UnitInfo)) :
    last_observation k (some u :: t)
      = ((last_observation k t).orElse
          fun _ => if u.unit = k then some u else none) := by
  unfold last_observation
  simp only [List.filterMap_cons, id_eq, List.foldl_cons]
  exact lastObs_acc k _ _

theorem columbus_fold_get (b k : String) (parsed : List (Option UnitInfo)) :
    ∀ d : List (String × UnitInfo),
      dictGet
        (parsed.foldl
          (fun d r =>
            match r with
            | none => d
            | some u => dictSet d u.unit { u with building := b }) d) k
      = (match last_observation k parsed with
         | some u => some { u with building := b }
         | none => dictGet d k) := by
  induction parsed with
  | nil => intro d; rfl
  | cons r t ih =>
    intro d
    cases r with
    | none =>
      simp only [List.foldl_cons]
      rw [ih d, last_observation_cons_none]
    | some u =>
      simp only [List.foldl_cons]
      rw [ih (dictSet d u.unit { u with building := b }),
        last_observation_cons_some]
      by_cases hu : u.unit = k
      · cases hl : last_observation k t with
        | some w => simp [hl, Option.orElse]
        | none =>
          simp [hl, Option.orElse, hu]
          exact dictGet_dictSet_self d k _
      · cases hl : last_observation k t with
        | some w => simp [hl, Option.orElse]
        | none =>
          have : dictGet (dictSet d u.unit { u with building := b }) k
              = dictGet d k :=
            dictGet_dictSet_ne d _ fun he => hu he.symm
          simp [hl, Option.orElse, hu, this]

theorem values_filter_eq_get (k : String) (d : List (String × UnitInfo)) :
    (dictKeys d).Nodup → (∀ p ∈ d, p.2.unit = p.1) →
    (dictValues d).filter (fun u => u.unit == k) = (dictGet d k).toList := by
  induction d with
  | nil => intro _ _; rfl
  | cons hd t ih =>
    intro hnd hco
    rw [dictKeys_cons] at hnd
    rcases List.nodup_cons.mp hnd with ⟨hh, ht⟩
    have hunit : hd.2.unit = hd.1 := hco hd (List.mem_cons_self _ _)
    have htl := ih ht fun p hp => hco p (List.mem_cons_of_mem _ hp)
    by_cases hk : hd.1 = k
    · have hnone : dictGet t k = none := dictGet_none_of_not_mem (hk ▸ hh)
      have hfilter : (hd.2.unit == k) = true := by simp [hunit, hk]
      rw [show dictValues (hd :: t) = hd.2 :: dictValues t from rfl,
        List.filter_cons, htl, hnone]
      simp [hfilter, dictGet, hk]
    · have hfilter : (hd.2.unit == k) = false := by simp [hunit, hk]
      rw [show dictValues (hd :: t) = hd.2 :: dictValues t from rfl,
        List.filter_cons, htl]
      simp [hfilter, dictGet, hk]

theorem columbus_fold_coherent (b : String) (parsed : List (Option UnitInfo)) :
    ∀ d : List (String × UnitInfo),
      (dictKeys d).Nodup → (∀ p ∈ d, p.2.unit = p.1) →
      (dictKeys
          (parsed.foldl
            (fun d r =>
              match r with
              | none => d
              | some u => dictSet d u.unit { u with building := b }) d)).Nodup
      ∧ ∀ p ∈ parsed.foldl
            (fun d r =>
              match r with
              | none => d
              | some u => dictSet d u.unit { u with building := b }) d,
          p.2.unit = p.1 := by
  induction parsed with
  | nil => intro d h1 h2; exact ⟨h1, h2⟩
  | cons r t ih =>
    intro d h1 h2
    cases r with
    | none => exact ih d h1 h2
    | some u =>
      simp only [List.foldl_cons]
      refine ih (dictSet d u.unit { u with building := b })
        (nodup_dictKeys_dictSet d u.unit _ h1) ?_
      intro p hp
      rcases mem_dictSet hp with hm | he
      · exact h2 p hm
      · rw [he]

/-- C3 counterexample: `Grand235Scraper.get_units` appends parsed rows with
no deduplication, so two raw listings carrying unit id `"101"` yield two
`UnitInfo` entries for that id — refuting the claim that every adapter
returns exactly one entry per non-empty unit id. -/
theorem grand_duplicate_units_counterexample :
    (((grand_get_units
        [[some ({ unit := "101", available_date := "2025-01-01" } : UnitInfo),
          some ({ unit := "101", available_date := "2025-02-01" } : UnitInfo)]]).filter
        fun u => u.unit == "101").length = 2)
    ∧ ((grand_get_units
        [[some ({ unit := "101", available_date := "2025-01-01" } : UnitInfo),
          some ({ unit := "101", available_date := "2025-02-01" } : UnitInfo)]]).map
        fun u => u.available_date) = ["2025-01-01", "2025-02-01"] :=
  ⟨rfl, rfl⟩

/-- C3 amended: the last-write-wins uniqueness invariant holds for the
Columbus per-floorplan collection (the code keying a dict by unit id):
at most one returned `UnitInfo` carries any given unit id, and when the
source yielded observations for that id the single returned entry is the
last observation (with `building` back-filled). The Grand adapter's
collection appends without deduplication and does not satisfy this. -/
theorem columbus_dedup_last_write_wins (b k : String)
    (parsed : List (Option UnitInfo)) :
    (((columbus_get_units_in_floorplan b parsed).filter
        fun u => u.unit == k).length ≤ 1)
    ∧ ∀ u, last_observation k parsed = some u →
        (columbus_get_units_in_floorplan b parsed).filter (fun v => v.unit == k)
          = [{ u with building := b }] := by
  have hfold := columbus_fold_coherent b parsed [] (by simp [dictKeys]) (by simp)
  have hval := values_filter_eq_get k _ hfold.1 hfold.2
  have hget := columbus_fold_get b k parsed []
  constructor
  · rw [show columbus_get_units_in_floorplan b parsed
        = dictValues
            (parsed.foldl
              (fun d r =>
                match r with
                | none => d
                | some u => dictSet d u.unit { u with building := b }) []) from rfl]
    rw [hval]
    cases dictGet
        (parsed.foldl
          (fun d r =>
            match r with
            | none => d
            | some u => dictSet d u.unit { u with building := b }) []) k <;> simp
  · intro u hu
    rw [show columbus_get_units_in_floorplan b parsed
        = dictValues
            (parsed.foldl
              (fun d r =>
                match r with
                | none => d
                | some u => dictSet d u.unit { u with building := b }) []) from rfl]
    rw [hval, hget, hu]
    rfl

/-- Witness for C3's amended statement: two observations of unit `"101"`
collapse to the later one, with the building back-filled. -/
theorem columbus_dedup_last_write_wins_witness :
    (columbus_get_units_in_floorplan "50-columbus"
        [some ({ unit := "101", available_date := "2025-01-01" } : UnitInfo),
         some ({ unit := "101", available_date := "2025-02-01" } : UnitInfo)]).filter
        (fun v => v.unit == "101")
      = [({ unit := "101", building := "50-columbus",
            available_date := "2025-02-01" } : UnitInfo)] := by
  have h := (columbus_dedup_last_write_wins "50-columbus" "101"
    [some ({ unit := "101", available_date := "2025-01-01" } : UnitInfo),
     some ({ unit := "101", available_date := "2025-02-01" } : UnitInfo)]).2
    ({ unit := "101", available_date := "2025-02-01" } : UnitInfo) rfl
  exact h

end JCLeasing

namespace JCLeasing

/-- C5: saving a mapping with one `UnitInfo` holding one `PriceInfo` and
loading it back yields exactly the original public fields (the nested
price projected the same way); the private-marker filter keeps all eight
public field names, and a null unit entry is skipped. -/
theorem results_round_trip (building : String) (u : UnitInfo) (p : PriceInfo) :
    (load_of_save [(building, [some ({ u with prices := [p] } : UnitInfo)])]
      = .obj [(building, .arr [.obj
          [("unit", .s u.unit), ("building", .s u.building), ("size", u.size),
           ("available_date", .s u.available_date),
           ("floorplan_type", .s u.floorplan_type),
           ("floorplan_link", .s u.floorplan_link),
           ("floorplan_note", .s u.floorplan_note),
           ("prices", .arr [.obj [("price", p.price),
             ("price_range", .s p.price_range),
             ("date_fetched", .s p.date_fetched)]])]])])
    ∧ ((dropPrivate (unitRawFields u)).map Prod.fst
        = ["unit", "building", "size", "available_date", "floorplan_type",
           "floorplan_link", "floorplan_note", "prices"])
    ∧ ∀ us : List (Option UnitInfo),
        serialize_results [(building, none :: us)]
          = serialize_results [(building, us)] :=
  ⟨rfl, rfl, fun _ => rfl⟩

/-- C6 counterexample: at a listing whose text has neither the 4-line shape
nor 5/6 stripped HTML lines, the adapter's parser completes with `None`
instead of raising (its outer handler would swallow any error anyway),
so the claim that an error is raised when neither layout matches fails
for the adapter; only the legacy `main.py` variant raises. -/
theorem columbus_no_raise_counterexample :
    layout1 "foo" = .error .valueError
    ∧ layout2 "<div>bar</div>" = .ok none
    ∧ columbus_parse_unit_html "" { text := "foo", innerHTML := "<div>bar</div>" }
        = .ok none
    ∧ main_parse_unit_html "" { text := "foo", innerHTML := "<div>bar</div>" }
        = .error .valueError :=
  ⟨rfl, rfl, rfl, rfl⟩

/-- C6 amended: both parser variants attempt the primary 4-line split first
and consult the HTML-fragment fallback exactly on its ValueError; when
neither layout matches, the adapter variant yields `none` (and, wrapped
in its outer handler, never raises at all), while the `main.py` variant
raises ValueError. -/
theorem two_layout_fallback (ts : String) (e : WebElem) :
    (columbus_parse_inner ts e
      = match layout1 e.text with
        | .ok f => (build_unit_columbus ts f).map some
        | .error .valueError =>
          (layout2 e.innerHTML).bind fun o =>
            match o with
            | some f => (build_unit_columbus ts f).map some
            | none => .ok none
        | .error e' => .error e')
    ∧ (∃ v, columbus_parse_unit_html ts e = .ok v)
    ∧ (main_parse_unit_html ts e
      = match layout1 e.text with
        | .ok f => build_unit_main ts f
        | .error .valueError =>
          (layout2 e.innerHTML).bind fun o =>
            match o with
            | some f => build_unit_main ts f
            | none => .error .valueError
        | .error e' => .error e') := by
  refine ⟨?_, ?_, ?_⟩
  · unfold columbus_parse_inner
    cases h1 : layout1 e.text with
    | ok f => cases build_unit_columbus ts f <;> rfl
    | error err =>
      cases err with
      | valueError =>
        cases layout2 e.innerHTML with
        | ok o =>
          cases o with
          | none => rfl
          | some f => cases build_unit_columbus ts f <;> rfl
        | error e2 => rfl
      | indexError => rfl
  · unfold columbus_parse_unit_html
    cases columbus_parse_inner ts e with
    | ok v => exact ⟨v, rfl⟩
    | error e' => exact ⟨none, rfl⟩
  · unfold main_parse_unit_html
    cases h1 : layout1 e.text with
    | ok f => rfl
    | error err =>
      cases err with
      | valueError =>
        cases layout2 e.innerHTML with
        | ok o => cases o <;> rfl
        | error e2 => rfl
      | indexError => rfl

end JCLeasing

namespace JCLeasing

/-! ### AJAX selection lemmas (C8) -/

theorem mem_insertByScoreDesc {x z : Nat × Option JVal}
    {l : List (Nat × Option JVal)} :
    z ∈ insertByScoreDesc x l ↔ z = x ∨ z ∈ l := by
  induction l with
  | nil => simp [insertByScoreDesc]
  | cons y t ih =>
    by_cases h : x.1 < y.1
    · simp only [insertByScoreDesc, if_pos h, List.mem_cons, ih]
      tauto
    · simp only [insertByScoreDesc, if_neg h, List.mem_cons]

theorem mem_sortScoredDesc {z : Nat × Option JVal} {l : List (Nat × Option JVal)} :
    z ∈ sortScoredDesc l ↔ z ∈ l := by
  induction l with
  | nil => simp [sortScoredDesc]
  | cons x t ih => simp [sortScoredDesc, mem_insertByScoreDesc, ih]

/-- Descending-by-score order. -/
def ScoreSorted (l : List (Nat × Option JVal)) : Prop :=
  l.Pairwise fun a b => b.1 ≤ a.1

theorem insertByScoreDesc_sorted {x : Nat × Option JVal}
    {l : List (Nat × Option JVal)} (h : ScoreSorted l) :
    ScoreSorted (insertByScoreDesc x l) := by
  induction l with
  | nil => simp [insertByScoreDesc, ScoreSorted]
  | cons y t ih =>
    rcases List.pairwise_cons.mp h with ⟨hy, ht⟩
    by_cases hx : x.1 < y.1
    · simp only [insertByScoreDesc, if_pos hx]
      refine List.pairwise_cons.mpr ⟨?_, ih ht⟩
      intro z hz
      rcases mem_insertByScoreDesc.mp hz with he | hm
      · exact he ▸ le_of_lt hx
      · exact hy z hm
    · simp only [insertByScoreDesc, if_neg hx]
      refine List.pairwise_cons.mpr ⟨?_, h⟩
      intro z hz
      rcases List.mem_cons.mp hz with he | hm
      · exact he ▸ le_of_not_lt hx
      · exact le_trans (hy z hm) (le_of_not_lt hx)

theorem sortScoredDesc_sorted (l : List (Nat × Option JVal)) :
    ScoreSorted (sortScoredDesc l) := by
  induction l with
  | nil => simp [sortScoredDesc, ScoreSorted]
  | cons x t ih => exact insertByScoreDesc_sorted ih

theorem mem_dictKeys_of_get {fs : List (String × α)} {k : String} {v : α}
    (h : dictGet fs k = some v) : k ∈ dictKeys fs := by
  induction fs with
  | nil => simp [dictGet] at h
  | cons hd t ih =>
    by_cases hk : hd.1 = k
    · exact hk ▸ List.mem_cons_self _ _
    · simp only [dictGet, hk, if_false] at h
      exact List.mem_cons_of_mem _ (ih h)

end JCLeasing

namespace JCLeasing

/-- C8 counterexample: with an unparseable body in the same polling window,
the bare `{"success", "msg"}` acknowledgment (score 1) does not rank
lowest among the collected responses — the unparseable one scores 0 —
and the acknowledgment is in fact the response kept. -/
theorem bare_success_not_lowest_counterexample :
    score_raw (some (.obj [("success", .s "true"), ("msg", .s "ok")])) = 1
    ∧ score_raw none = 0
    ∧ choose_best_ajax_response
        [some (.obj [("success", .s "true"), ("msg", .s "ok")]), none]
      = some (some (.obj [("success", .s "true"), ("msg", .s "ok")]))
    ∧ ¬ score_raw (some (.obj [("success", .s "true"), ("msg", .s "ok")]))
        ≤ score_raw none :=
  ⟨rfl, rfl, rfl, by decide⟩

/-- C8 amended: the helper keeps a response of maximal score (and returns
one whenever any response was captured); the scoring ranks a bare
success acknowledgment at 1 — above an unparseable response's 0 but
below every parseable payload whose `query_response` holds actual
records, which scores at least 60 (10 per expected field present plus a
50 bonus for a non-empty record list). -/
theorem choose_best_keeps_max_score :
    (∀ (responses : List (Option JVal)) (r : Option JVal),
      choose_best_ajax_response responses = some r →
        r ∈ responses ∧ ∀ r' ∈ responses, score_raw r' ≤ score_raw r)
    ∧ (∀ responses : List (Option JVal), responses ≠ [] →
        ∃ r, choose_best_ajax_response responses = some r)
    ∧ (∀ fs : List (String × JVal), keySetEqSuccessMsg (fs.map Prod.fst) = true →
        score_ajax_response (.obj fs) = 1)
    ∧ (∀ (fs : List (String × JVal)) (xs : List JVal),
        dictGet fs "query_response" = some (.arr xs) → xs ≠ [] →
        keySetEqSuccessMsg (fs.map Prod.fst) = false →
        60 ≤ score_ajax_response (.obj fs))
    ∧ score_raw none = 0 := by
  refine ⟨?_, ?_, ?_, ?_, rfl⟩
  · intro responses r hr
    cases responses with
    | nil => cases hr
    | cons x t =>
      cases hs : sortScoredDesc ((x :: t).map fun r => (score_raw r, r)) with
      | nil =>
        exfalso
        have hm : (score_raw x, x) ∈ (x :: t).map fun r => (score_raw r, r) :=
          List.mem_map_of_mem _ (List.mem_cons_self _ _)
        have hms := mem_sortScoredDesc.mpr hm
        rw [hs] at hms
        cases hms
      | cons hd tl =>
        have hcb : choose_best_ajax_response (x :: t) = some hd.2 := by
          show ((sortScoredDesc ((x :: t).map fun r => (score_raw r, r))).head?).map
              Prod.snd = some hd.2
          rw [hs]
          rfl
        have hr' : r = hd.2 := by
          rw [hcb] at hr
          exact (Option.some.inj hr).symm
        have hhd : hd ∈ (x :: t).map fun r => (score_raw r, r) := by
          have hm : hd ∈ sortScoredDesc ((x :: t).map fun r => (score_raw r, r)) := by
            rw [hs]
            exact List.mem_cons_self _ _
          exact mem_sortScoredDesc.mp hm
        rcases List.mem_map.mp hhd with ⟨r0, hr0, he⟩
        have hscore : hd.1 = score_raw hd.2 := by rw [← he]
        refine ⟨?_, ?_⟩
        · rw [hr', ← he]
          exact hr0
        · intro r' hr'mem
          have hm' : (score_raw r', r') ∈ (x :: t).map fun r => (score_raw r, r) :=
            List.mem_map_of_mem _ hr'mem
          have hms : (score_raw r', r') ∈ hd :: tl := by
            rw [← hs]
            exact mem_sortScoredDesc.mpr hm'
          have hsorted := sortScoredDesc_sorted ((x :: t).map fun r => (score_raw r, r))
          rw [hs] at hsorted
          rcases List.mem_cons.mp hms with he' | hm'' 
          · have h1 : score_raw r' = hd.1 := congrArg Prod.fst he'
            rw [hr', ← hscore, h1]
          · have h1 := (List.pairwise_cons.mp hsorted).1 _ hm''
            rw [hr', ← hscore]
            exact h1
  · intro responses hne
    cases responses with
    | nil => exact absurd rfl hne
    | cons x t =>
      cases hs : sortScoredDesc ((x :: t).map fun r => (score_raw r, r)) with
      | nil =>
        exfalso
        have hm : (score_raw x, x) ∈ (x :: t).map fun r => (score_raw r, r) :=
          List.mem_map_of_mem _ (List.mem_cons_self _ _)
        have hms := mem_sortScoredDesc.mpr hm
        rw [hs] at hms
        cases hms
      | cons hd tl =>
        refine ⟨hd.2, ?_⟩
        show ((sortScoredDesc ((x :: t).map fun r => (score_raw r, r))).head?).map
            Prod.snd = some hd.2
        rw [hs]
        rfl
  · intro fs h
    simp [score_ajax_response, h]
  · intro fs xs hget hxs hkeys
    have hmemkeys : "query_response" ∈ fs.map Prod.fst := mem_dictKeys_of_get hget
    have hcontains : (fs.map Prod.fst).contains "query_response" = true := by
      simpa using hmemkeys
    have hfilter : "query_response"
        ∈ floorplan_fields.filter fun fld => (fs.map Prod.fst).contains fld :=
      List.mem_filter.mpr ⟨by decide, hcontains⟩
    have hlen : 0 < (floorplan_fields.filter
        fun fld => (fs.map Prod.fst).contains fld).length :=
      List.length_pos.mpr (List.ne_nil_of_mem hfilter)
    have hbonus : (0 : Nat) < xs.length := List.length_pos.mpr hxs
    have hscore_eq : score_ajax_response (.obj fs)
        = 10 * (floorplan_fields.filter
            fun fld => (fs.map Prod.fst).contains fld).length + 50 := by
      simp [score_ajax_response, hget, hkeys, hbonus]
    rw [hscore_eq]
    omega

/-- Witness for C8's amended statement at a concrete capture containing a
record payload and an unparseable response. -/
theorem choose_best_keeps_max_score_witness :
    (some (JVal.obj [("query_response", .arr [.obj []])])
        ∈ [some (JVal.obj [("query_response", .arr [.obj []])]), none]
      ∧ ∀ r' ∈ [some (JVal.obj [("query_response", .arr [.obj []])]), none],
          score_raw r' ≤ score_raw (some (JVal.obj [("query_response", .arr [.obj []])])))
    ∧ score_ajax_response (.obj [("success", .s "true"), ("msg", .s "ok")]) = 1
    ∧ 60 ≤ score_ajax_response (.obj [("query_response", .arr [.obj []])]) := by
  refine ⟨?_, ?_, ?_⟩
  · exact choose_best_keeps_max_score.1
      [some (JVal.obj [("query_response", .arr [.obj []])]), none]
      (some (JVal.obj [("query_response", .arr [.obj []])])) rfl
  · exact choose_best_keeps_max_score.2.2.1
      [("success", .s "true"), ("msg", .s "ok")] rfl
  · exact choose_best_keeps_max_score.2.2.2.1
      [("query_response", .arr [.obj []])] [.obj []] rfl
      (List.cons_ne_nil _ _) rfl

end JCLeasing
